import Mathlib

/-
  Verification development for the chunked, rate-limited, ordered audio
  transcription pipeline implemented in
  `src/shared/transcription_service.py` (class `AudioTranscriptionService`).

  Modelling conventions (shallow embedding of the Python source):
  * Python `str` values are modelled as `List Char` (`PyStr`); `str.strip()`
    becomes `pyStrip`, `sep.join(xs)` becomes `pyJoin sep xs`, and Python
    truthiness of a string is emptiness testing.
  * The decoded audio stream is modelled as a list whose length is the
    duration in milliseconds (`AudioStream`); pydub slicing `audio[a:b]`
    becomes `(audio.drop a).take (b - a)`.
  * Calls to external collaborators (Google Cloud Storage upload, the
    long-running recognition RPC, pydub decoding, file writes) are oracles
    supplied as parameters: an oracle value records what the collaborator
    did on the given call.  Exceptions raised by a collaborator are oracle
    variants (`RpcOutcome.rpcError`, `RpcOutcome.timedOut`, ...), and the
    Python `try/except` blocks of the source become pattern matches.
  * `asyncio.Semaphore(5)` + `asyncio.gather` over the per-chunk coroutines
    is modelled by a small-step scheduler (`runTrace`) parametrised by an
    arbitrary completion `schedule`, so every possible completion order of
    the concurrent transcriptions is quantified over.
-/

/-! ## Python string primitives -/

/-- Model of a Python `str`: a list of characters. -/
abbrev PyStr := List Char

/-- The whitespace characters removed by Python's `str.strip()`
(ASCII fragment, which covers the characters the service manipulates). -/
def isPySpace (c : Char) : Bool :=
  c = ' ' || c = '\t' || c = '\n' || c = '\r' || c = '\x0b' || c = '\x0c'

/-- Remove leading whitespace (left part of `str.strip()`). -/
def stripLeft (s : PyStr) : PyStr := s.dropWhile isPySpace

/-- Remove trailing whitespace (right part of `str.strip()`). -/
def stripRight (s : PyStr) : PyStr := (s.reverse.dropWhile isPySpace).reverse

/-- Python's `str.strip()`: remove surrounding whitespace. -/
def pyStrip (s : PyStr) : PyStr := stripLeft (stripRight s)

/-- Python's `sep.join(xs)`: interleave `sep` between the elements. -/
def pyJoin (sep : PyStr) : List PyStr → PyStr
  | [] => []
  | [x] => x
  | x :: y :: rest => x ++ sep ++ pyJoin sep (y :: rest)

/-- The list comprehension `[t for t in transcripts if t]` of line 497:
keep the values that are neither `None` nor the empty string
(Python truthiness on `Optional[str]`). -/
def keepTruthy (transcripts : List (Option PyStr)) : List PyStr :=
  transcripts.filterMap fun o =>
    match o with
    | none => none
    | some t => if t.isEmpty then none else some t

/-! ## `transcribe_audio_chunk` (lines 339-385) -/

/-- Oracle describing what the remote recognition round trip
(`long_running_recognize` + `operation.result(timeout=3600)`) did for one
URI: returned a response (`success`, carrying for each recognition result
its list of alternative transcripts), raised an RPC error, or timed out. -/
inductive RpcOutcome
  | success (results : List (List PyStr))
  | rpcError
  | timedOut
  deriving DecidableEq, Repr

/-- The result-joining loop of lines 376-378:
`transcript += result.alternatives[0].transcript + " "`.
A result with an empty `alternatives` list makes `alternatives[0]` raise,
which the surrounding `except` turns into `None`: hence the `Option`. -/
def collectTranscript : List (List PyStr) → Option PyStr
  | [] => some []
  | alternatives :: rest =>
    match alternatives with
    | [] => none
    | a :: _ => (collectTranscript rest).map fun t => a ++ [' '] ++ t

/-- Model of `transcribe_audio_chunk(gcs_uri, chunk_index)` (lines 339-385):
invoke
the recognition RPC for `gcs_uri`, join the alternative-1 transcripts with
trailing spaces, and `strip()` the result; every exception inside the body
(RPC submission, the bounded wait, result extraction) is caught by the
`except` of line 383 and becomes `None`. -/
def transcribe_audio_chunk (rpc : PyStr → RpcOutcome) (gcs_uri : PyStr)
    (chunk_index : Nat) : Option PyStr :=
  match rpc gcs_uri with
  | .success results =>
    match collectTranscript results with
    | some transcript => some (pyStrip transcript)
    | none => none
  | .rpcError => none
  | .timedOut => none

/-- Python's `f"{i:04d}"`: decimal digits of `i`, zero-padded to width 4. -/
def pad4 (i : Nat) : PyStr :=
  let d := Nat.toDigits 10 i
  List.replicate (4 - d.length) '0' ++ d

/-- The fixed GCS URI of chunk `i` (lines 402-404):
`gs://{bucket}/audio_chunks/chunk_{i:04d}.wav`. -/
def gcsUri (bucket : PyStr) (i : Nat) : PyStr :=
  "gs://".toList ++ bucket ++ "/audio_chunks/chunk_".toList ++ pad4 i ++ ".wav".toList

/-- Model of `upload_to_gcs` (lines 317-337): the upload either succeeds (returns
`True`) or raises, and the `except` of line 335 absorbs the exception and
returns `False`.  The oracle `ok` records which of the two happened. -/
def upload_to_gcs (ok : Bool) : Bool := ok

/-! ## Scheduler model of `asyncio.Semaphore(5)` + `asyncio.gather`
(lines 407-420).

Every per-chunk coroutine first acquires the semaphore, so at most 5
transcriptions are in flight at any instant; when one completes, its slot
is released and a queued coroutine is admitted.  `gather` collects each
coroutine's result keyed by its position in the task list.  The scheduler
below makes the completion order explicit: `schedule` chooses, at each
step, which in-flight task completes next, so all interleavings are
covered by quantifying over `schedule`. -/

/-- Scheduler state: task indices still queued on the semaphore
(`pending`, in submission order), task indices currently in flight
(`running`), and completed results keyed by task index (`done`). -/
structure SchedState where
  pending : List Nat
  running : List Nat
  done : List (Nat × Option PyStr)
  deriving DecidableEq, Repr

/-- Semaphore admission: move queued tasks into flight while fewer than
`maxConc` are running. -/
def acquireSlots (maxConc : Nat) : List Nat → List Nat → List Nat × List Nat
  | [], running => ([], running)
  | i :: pending, running =>
    if running.length < maxConc then acquireSlots maxConc pending (running ++ [i])
    else (i :: pending, running)

/-- One completion step: the task at position `choice % running.length`
of the in-flight list finishes with result `outcome i` and releases its
slot. -/
def completeOne (outcome : Nat → Option PyStr) (choice : Nat)
    (pending running : List Nat) (done : List (Nat × Option PyStr)) : SchedState :=
  let k := choice % running.length
  let i := running.getD k 0
  ⟨pending, running.take k ++ running.drop (k + 1), (i, outcome i) :: done⟩

/-- Full execution trace: the sequence of scheduler states visited.
Entries tagged `true` are the states right after an admission pass (the
instants at which tasks run between scheduler events); entries tagged
`false` are the states on entry of an iteration (initial, or right after
a completion). -/
def runTrace (outcome : Nat → Option PyStr) :
    Nat → List Nat → SchedState → List (Bool × SchedState)
  | 0, _, s => [(false, s)]
  | fuel + 1, schedule, s =>
    match acquireSlots 5 s.pending s.running with
    | (p, []) => [(false, s), (true, ⟨p, [], s.done⟩)]
    | (p, a :: r) =>
      (false, s) :: (true, ⟨p, a :: r, s.done⟩) ::
        runTrace outcome fuel schedule.tail
          (completeOne outcome (schedule.headD 0) p (a :: r) s.done)

/-- Final scheduler state: the last state of the trace. -/
def runSched (outcome : Nat → Option PyStr) (fuel : Nat) (schedule : List Nat)
    (s : SchedState) : SchedState :=
  ((runTrace outcome fuel schedule s).getLastD (false, s)).2

/-- Model of `process_audio_chunks_parallel(chunk_files)` (lines 387-420): upload
every chunk sequentially to its fixed GCS path (the returned success flag
is discarded by the source), build one transcription task per chunk, run
them all under `Semaphore(5)` (here: the scheduler with the given
completion `schedule`; fuel `n` suffices because each iteration completes
exactly one task), and return the results in task order as `gather` does. -/
def process_audio_chunks_parallel (bucket : PyStr) (uploadOk : Nat → Bool)
    (rpc : PyStr → RpcOutcome) (schedule : List Nat)
    (chunk_files : List (List Unit)) : List (Option PyStr) :=
  let n := chunk_files.length
  let _uploadResults := (List.range n).map fun i => upload_to_gcs (uploadOk i)
  let outcome : Nat → Option PyStr := fun i =>
    transcribe_audio_chunk rpc (gcsUri bucket i) i
  let final := runSched outcome n schedule ⟨List.range n, [], []⟩
  (List.range n).map fun i => (final.done.lookup i).getD none

/-- The scheduler trace underlying a `process_audio_chunks_parallel` run
(used to state the concurrency-bound claim). -/
def processTrace (bucket : PyStr) (rpc : PyStr → RpcOutcome)
    (schedule : List Nat) (chunk_files : List (List Unit)) :
    List (Bool × SchedState) :=
  let n := chunk_files.length
  runTrace (fun i => transcribe_audio_chunk rpc (gcsUri bucket i) i)
    n schedule ⟨List.range n, [], []⟩

/-! ## Chunking (`split_audio_for_processing`, lines 279-315) -/

/-- Model of an audio stream: one list element per millisecond of
duration. -/
abbrev AudioStream := List Unit

/-- Ceiling division, the `ceil(len(audio_segment) / float(chunk_length))`
of `pydub.utils.make_chunks`. -/
def ceilDiv (a b : Nat) : Nat := (a + b - 1) / b

/-- Model of `pydub.utils.make_chunks(audio_segment, chunk_length)` as called on
line 296: `ceil(len(audio)/chunk_length)` consecutive slices
`audio[i*chunk_length : (i+1)*chunk_length]`. -/
def make_chunks {α : Type} (audio_segment : List α) (chunk_length : Nat) :
    List (List α) :=
  (List.range (ceilDiv audio_segment.length chunk_length)).map fun i =>
    (audio_segment.drop (i * chunk_length)).take chunk_length

/-- Oracle for the chunk-export loop of lines 301-304: either every chunk
file is exported (`ok`), or exporting chunk `k` raised (disk full, ...),
in which case the `except` of line 313 returns `[]` while the `k` chunk
files already exported stay on disk. -/
inductive SplitOutcome
  | ok
  | failAfter (k : Nat)
  deriving DecidableEq, Repr

/-- Model of `split_audio_for_processing(audio_path, chunk_length_ms)`
(lines 279-315): returns the list of chunk files (modelled by the chunk
contents) together with the number of chunk files materialised on disk. -/
def split_audio_for_processing (o : SplitOutcome) (audio : AudioStream)
    (chunk_length_ms : Nat) : List AudioStream × Nat :=
  let chunks := make_chunks audio chunk_length_ms
  match o with
  | .ok => (chunks, chunks.length)
  | .failAfter k => ([], min k chunks.length)

/-! ## Validation and normalization (lines 143-277) -/

/-- Model of `validate_audio_file(audio_path)` (lines 143-181): `False` when the
file is missing or has size 0; an unsupported extension only logs a
warning and still returns `True`. -/
def validate_audio_file (fileExists : Bool) (file_size : Nat) : Bool :=
  fileExists && !(file_size == 0)

/-- Model of `convert_to_wav_if_needed(audio_path, output_path)` (lines 183-277):
`decoded` is the decoded audio stream (`none` when decoding raised, which
the `except` of line 275 turns into `False`), `exportOk` records whether
resampling/export succeeded.  The body never inspects the decoded
duration: a zero-duration stream converts successfully. -/
def convert_to_wav_if_needed (decoded : Option AudioStream) (exportOk : Bool) :
    Bool :=
  match decoded with
  | none => false
  | some _audio => exportOk

/-! ## Orchestrator (`process_audio_transcription`, lines 456-522) -/

/-- The fatal errors the orchestrator raises (the `raise Exception(...)`
sites of lines 473, 486, 491, 500, 505). -/
inductive PipeError
  | inputInvalid
  | convertFailed
  | splitFailed
  | emptyTranscript
  | saveFailed
  deriving DecidableEq, Repr

/-- How a `process_audio_transcription` run terminates: `return True`, a
raised pipeline exception, or an `asyncio` cancellation (which Python's
`except Exception` clauses do not catch, but `finally` still runs for). -/
inductive RunResult
  | success
  | pipeError (e : PipeError)
  | cancelled
  deriving DecidableEq, Repr

/-- The stages inside the orchestrator's `try` block at which a
cancellation can arrive. -/
inductive Stage
  | convertStage
  | splitStage
  | transcribeStage
  | saveStage
  deriving DecidableEq, Repr

/-- Oracle for `save_transcript_locally` (lines 422-454): the write
succeeds; or raises before the output file is created; or raises midway,
leaving `written` in the output file (the `except` of line 452 returns
`False` either way). -/
inductive SaveOutcome
  | ok
  | failNothing
  | failPartWritten (written : PyStr)
  deriving DecidableEq, Repr

/-- Everything outside the orchestrator that determines one run: the
input file, the collaborator oracles, the completion schedule of the
concurrent transcriptions, and an optional cancellation point. -/
structure PipelineEnv where
  fileExists : Bool
  file_size : Nat
  decoded : Option AudioStream
  exportOk : Bool
  splitOutcome : SplitOutcome
  bucket : PyStr
  uploadOk : Nat → Bool
  rpc : PyStr → RpcOutcome
  schedule : List Nat
  saveOutcome : SaveOutcome
  saveCancelWritten : PyStr
  cancelAt : Option Stage
  chunk_length_ms : Nat

/-- The local filesystem after a run: whether the scoped temporary
directory holding `optimized_audio.wav` survived, how many chunk
temporary files survived, and the output file (content plus a flag for
"completely written"), if one exists. -/
structure FsAfter where
  normTempRemains : Bool
  chunkFilesRemain : Nat
  outputFile : Option (PyStr × Bool)
  deriving DecidableEq, Repr

/-- What one execution of the orchestrator's `try` block produced before
the `finally` runs: the control-flow outcome, the number of chunk files
materialised on disk, the number of chunk files recorded in the
orchestrator's `chunk_files` list, and the output file, if any. -/
structure TryOutcome where
  res : RunResult
  filesOnDisk : Nat
  filesListed : Nat
  output : Option (PyStr × Bool)
  deriving DecidableEq, Repr

/-- The `try` block of `process_audio_transcription` (lines 479-512):
convert, split, transcribe all chunks concurrently, join the results
(line 497), fail on an all-empty transcript (lines 499-500), save. -/
def pipelineTryBody (env : PipelineEnv) : TryOutcome :=
  if env.cancelAt = some .convertStage then ⟨.cancelled, 0, 0, none⟩
  else if !(convert_to_wav_if_needed env.decoded env.exportOk) then
    ⟨.pipeError .convertFailed, 0, 0, none⟩
  else if env.cancelAt = some .splitStage then ⟨.cancelled, 0, 0, none⟩
  else
    let audio := env.decoded.getD []
    let split := split_audio_for_processing env.splitOutcome audio env.chunk_length_ms
    let chunk_files := split.1
    let onDisk := split.2
    if chunk_files.isEmpty then ⟨.pipeError .splitFailed, onDisk, 0, none⟩
    else if env.cancelAt = some .transcribeStage then
      ⟨.cancelled, onDisk, chunk_files.length, none⟩
    else
      let transcripts := process_audio_chunks_parallel env.bucket env.uploadOk
        env.rpc env.schedule chunk_files
      let final_transcript := pyJoin ['\n'] (keepTruthy transcripts)
      if (pyStrip final_transcript).isEmpty then
        ⟨.pipeError .emptyTranscript, onDisk, chunk_files.length, none⟩
      else if env.cancelAt = some .saveStage then
        ⟨.cancelled, onDisk, chunk_files.length, some (env.saveCancelWritten, false)⟩
      else
        match env.saveOutcome with
        | .ok => ⟨.success, onDisk, chunk_files.length, some (final_transcript, true)⟩
        | .failNothing => ⟨.pipeError .saveFailed, onDisk, chunk_files.length, none⟩
        | .failPartWritten w =>
          ⟨.pipeError .saveFailed, onDisk, chunk_files.length, some (w, false)⟩

/-- Model of `process_audio_transcription(audio_path, output_path,
chunk_length_ms)`
(lines 456-522).  Validation happens before the `try` (line 472); the
`finally` of lines 514-522 removes the temporary directory (hence the
normalized-audio file) and unlinks every file in the orchestrator's
`chunk_files` list; it never touches `output_path`.  Returns the run
result and the filesystem state after the `finally`. -/
def process_audio_transcription (env : PipelineEnv) : RunResult × FsAfter :=
  if !(validate_audio_file env.fileExists env.file_size) then
    (.pipeError .inputInvalid, ⟨false, 0, none⟩)
  else
    -- temp_dir = mkdtemp(); wav_path = temp_dir/"optimized_audio.wav"; chunk_files = []
    let body := pipelineTryBody env
    -- finally: shutil.rmtree(temp_dir); for f in chunk_files: os.unlink(f)
    (body.res, ⟨false, body.filesOnDisk - body.filesListed, body.output⟩)

/-! ## Scheduler lemmas -/

theorem acquireSlots_length (m : Nat) (p r : List Nat) :
    (acquireSlots m p r).1.length + (acquireSlots m p r).2.length
      = p.length + r.length := by
  induction p generalizing r with
  | nil => simp [acquireSlots]
  | cons i p ih =>
    simp only [acquireSlots]
    split
    · rw [ih]; simp; omega
    · simp

theorem acquireSlots_mem (m : Nat) (p r : List Nat) (x : Nat) :
    (x ∈ (acquireSlots m p r).1 ∨ x ∈ (acquireSlots m p r).2)
      ↔ (x ∈ p ∨ x ∈ r) := by
  induction p generalizing r with
  | nil => simp [acquireSlots]
  | cons i p ih =>
    simp only [acquireSlots]
    split
    · rw [ih]
      simp [List.mem_append]
      tauto
    · simp

theorem acquireSlots_bound (m : Nat) (p r : List Nat) (h : r.length ≤ m) :
    (acquireSlots m p r).2.length ≤ m := by
  induction p generalizing r with
  | nil => simpa [acquireSlots]
  | cons i p ih =>
    simp only [acquireSlots]
    split
    · exact ih _ (by simp; omega)
    · simpa

theorem acquireSlots_full (m : Nat) (p r : List Nat)
    (h : (acquireSlots m p r).1 ≠ []) : m ≤ (acquireSlots m p r).2.length := by
  induction p generalizing r with
  | nil => simp [acquireSlots] at h
  | cons i p ih =>
    by_cases hlt : r.length < m
    · simp only [acquireSlots, if_pos hlt] at h ⊢
      exact ih _ h
    · simp only [acquireSlots, if_neg hlt] at h ⊢
      omega

theorem acquireSlots_running_nil (m : Nat) (p r : List Nat) (hm : 0 < m)
    (h : (acquireSlots m p r).2 = []) : p = [] ∧ r = [] := by
  induction p generalizing r with
  | nil => simpa [acquireSlots] using h
  | cons i p ih =>
    simp only [acquireSlots] at h
    rcases Nat.lt_or_ge r.length m with hlt | hge
    · rw [if_pos hlt] at h
      have := (ih _ h).2
      simp at this
    · rw [if_neg (by omega)] at h
      simp at h
      subst h
      simp at hge
      omega

theorem mem_take_drop_of_mem {l : List Nat} {k x : Nat} (hk : k < l.length)
    (hx : x ∈ l) : x = l.getD k 0 ∨ x ∈ l.take k ++ l.drop (k + 1) := by
  have hgd : l.getD k 0 = l[k] := by
    simp [List.getD_eq_getElem?_getD, List.getElem?_eq_getElem hk]
  conv at hx => rw [← List.take_append_drop k l]
  rw [List.drop_eq_getElem_cons hk] at hx
  rcases List.mem_append.mp hx with h1 | h1
  · exact Or.inr (List.mem_append.mpr (Or.inl h1))
  · rcases List.mem_cons.mp h1 with h2 | h2
    · exact Or.inl (by rw [hgd, h2])
    · exact Or.inr (List.mem_append.mpr (Or.inr h2))

theorem runTrace_ne_nil (outcome : Nat → Option PyStr) (fuel : Nat)
    (sched : List Nat) (s : SchedState) : runTrace outcome fuel sched s ≠ [] := by
  cases fuel with
  | zero => simp [runTrace]
  | succ n =>
    rw [runTrace]
    split <;> simp

theorem runSched_zero (outcome : Nat → Option PyStr) (sched : List Nat)
    (s : SchedState) : runSched outcome 0 sched s = s := rfl

theorem runSched_succ_idle (outcome : Nat → Option PyStr) (fuel : Nat)
    (sched : List Nat) (s : SchedState) {p : List Nat}
    (h : acquireSlots 5 s.pending s.running = (p, [])) :
    runSched outcome (fuel + 1) sched s = ⟨p, [], s.done⟩ := by
  unfold runSched
  rw [runTrace, h]
  simp [List.getLastD_cons]

theorem getLastD_irrel {α : Type} (l : List α) (d₁ d₂ : α) (h : l ≠ []) :
    l.getLastD d₁ = l.getLastD d₂ := by
  cases l with
  | nil => exact absurd rfl h
  | cons a l => rw [List.getLastD_cons, List.getLastD_cons]

theorem runSched_succ_step (outcome : Nat → Option PyStr) (fuel : Nat)
    (sched : List Nat) (s : SchedState) {p : List Nat} {a : Nat} {r : List Nat}
    (h : acquireSlots 5 s.pending s.running = (p, a :: r)) :
    runSched outcome (fuel + 1) sched s =
      runSched outcome fuel sched.tail
        (completeOne outcome (sched.headD 0) p (a :: r) s.done) := by
  unfold runSched
  rw [runTrace, h]
  rw [List.getLastD_cons, List.getLastD_cons]
  exact congrArg Prod.snd
    (getLastD_irrel _ _ _ (runTrace_ne_nil outcome fuel sched.tail _))

theorem runSched_final (outcome : Nat → Option PyStr) : ∀ (fuel : Nat)
    (sched : List Nat) (s : SchedState),
    (∀ x ∈ s.done, x.2 = outcome x.1) →
    fuel = s.pending.length + s.running.length →
    (runSched outcome fuel sched s).pending = [] ∧
    (runSched outcome fuel sched s).running = [] ∧
    (∀ x ∈ (runSched outcome fuel sched s).done, x.2 = outcome x.1) ∧
    (∀ i, (i ∈ s.pending ∨ i ∈ s.running ∨ i ∈ s.done.map Prod.fst) →
      i ∈ (runSched outcome fuel sched s).done.map Prod.fst) := by
  intro fuel
  induction fuel with
  | zero =>
    intro sched s hdone hlen
    have hp : s.pending = [] := List.length_eq_zero.mp (by omega)
    have hr : s.running = [] := List.length_eq_zero.mp (by omega)
    rw [runSched_zero]
    refine ⟨hp, hr, hdone, ?_⟩
    intro i hi
    rcases hi with hi | hi | hi
    · rw [hp] at hi; simp at hi
    · rw [hr] at hi; simp at hi
    · exact hi
  | succ fuel ih =>
    intro sched s hdone hlen
    cases hacq : acquireSlots 5 s.pending s.running with
    | mk p r =>
      cases r with
      | nil =>
        exfalso
        have := acquireSlots_running_nil 5 s.pending s.running (by omega)
          (by rw [hacq])
        rw [this.1, this.2] at hlen
        simp at hlen
      | cons a r =>
        rw [runSched_succ_step outcome fuel sched s hacq]
        have hsum : p.length + (a :: r).length
            = s.pending.length + s.running.length := by
          have := acquireSlots_length 5 s.pending s.running
          rw [hacq] at this
          simpa using this
        obtain ⟨k, hklt, hkeq⟩ : ∃ k, k < (a :: r).length ∧
            (sched.headD 0) % (a :: r).length = k :=
          ⟨_, Nat.mod_lt _ (by simp), rfl⟩
        have hcomp : completeOne outcome (sched.headD 0) p (a :: r) s.done
            = ⟨p, (a :: r).take k ++ (a :: r).drop (k + 1),
                ((a :: r).getD k 0, outcome ((a :: r).getD k 0)) :: s.done⟩ := by
          simp only [completeOne]
          rw [hkeq]
        rw [hcomp]
        have hlen2 : fuel
            = p.length + ((a :: r).take k ++ (a :: r).drop (k + 1)).length := by
          rw [List.length_append, List.length_take, List.length_drop,
            Nat.min_eq_left (Nat.le_of_lt hklt)]
          simp only [List.length_cons] at hsum hklt ⊢
          omega
        have hdone2 : ∀ x ∈ (((a :: r).getD k 0, outcome ((a :: r).getD k 0))
            :: s.done), x.2 = outcome x.1 := by
          intro x hx
          rcases List.mem_cons.mp hx with hx | hx
          · rw [hx]
          · exact hdone x hx
        obtain ⟨h1, h2, h3, h4⟩ := ih sched.tail
          ⟨p, (a :: r).take k ++ (a :: r).drop (k + 1),
            ((a :: r).getD k 0, outcome ((a :: r).getD k 0)) :: s.done⟩
          hdone2 hlen2
        refine ⟨h1, h2, h3, ?_⟩
        intro i hi
        apply h4
        have hmem : i ∈ p ∨ i ∈ (a :: r) ∨ i ∈ s.done.map Prod.fst := by
          rcases hi with hi | hi | hi
          · have h5 := (acquireSlots_mem 5 s.pending s.running i).mpr (Or.inl hi)
            rw [hacq] at h5
            rcases h5 with h5 | h5
            · exact Or.inl h5
            · exact Or.inr (Or.inl h5)
          · have h5 := (acquireSlots_mem 5 s.pending s.running i).mpr (Or.inr hi)
            rw [hacq] at h5
            rcases h5 with h5 | h5
            · exact Or.inl h5
            · exact Or.inr (Or.inl h5)
          · exact Or.inr (Or.inr hi)
        rcases hmem with hi' | hi' | hi'
        · exact Or.inl hi'
        · rcases mem_take_drop_of_mem hklt hi' with he | he
          · right; right
            simp only [List.map_cons, List.mem_cons]
            exact Or.inl he
          · right; left
            exact he
        · right; right
          simp only [List.map_cons, List.mem_cons]
          exact Or.inr hi'

theorem lookup_done_eq (outcome : Nat → Option PyStr) :
    ∀ (d : List (Nat × Option PyStr)) (i : Nat),
    (∀ x ∈ d, x.2 = outcome x.1) → i ∈ d.map Prod.fst →
    d.lookup i = some (outcome i) := by
  intro d
  induction d with
  | nil => simp
  | cons x d ih =>
    intro i hval hmem
    obtain ⟨a, b⟩ := x
    by_cases hai : a = i
    · subst hai
      have hb : b = outcome a := hval (a, b) (List.mem_cons_self _ _)
      simp [List.lookup, hb]
    · have hba : (i == a) = false := by
        simp only [beq_eq_false_iff_ne, ne_eq]
        exact fun h => hai h.symm
      rw [List.lookup_cons, hba]
      apply ih
      · intro y hy
        exact hval y (List.mem_cons_of_mem _ hy)
      · simp at hmem
        rcases hmem with hmem | hmem
        · exact absurd hmem.symm hai
        · simpa using hmem

/-- Characterization of `process_audio_chunks_parallel`: whatever the
completion schedule, the returned list is the per-chunk transcription
results in task (= chunk) order. -/
theorem process_audio_chunks_parallel_eq (bucket : PyStr)
    (uploadOk : Nat → Bool) (rpc : PyStr → RpcOutcome) (schedule : List Nat)
    (chunk_files : List (List Unit)) :
    process_audio_chunks_parallel bucket uploadOk rpc schedule chunk_files =
      (List.range chunk_files.length).map
        (fun i => transcribe_audio_chunk rpc (gcsUri bucket i) i) := by
  unfold process_audio_chunks_parallel
  apply List.map_congr_left
  intro i hi
  have hfin := runSched_final
    (fun i => transcribe_audio_chunk rpc (gcsUri bucket i) i)
    chunk_files.length schedule ⟨List.range chunk_files.length, [], []⟩
    (by simp) (by simp)
  have hmem : i ∈ (runSched
      (fun i => transcribe_audio_chunk rpc (gcsUri bucket i) i)
      chunk_files.length schedule
      ⟨List.range chunk_files.length, [], []⟩).done.map Prod.fst :=
    hfin.2.2.2 i (Or.inl hi)
  rw [lookup_done_eq (fun i => transcribe_audio_chunk rpc (gcsUri bucket i) i)
    _ _ hfin.2.2.1 hmem]
  rfl

/-- The concurrency-bound invariant over the whole execution trace. -/
theorem runTrace_bound (outcome : Nat → Option PyStr) : ∀ (fuel : Nat)
    (sched : List Nat) (s : SchedState), s.running.length ≤ 5 →
    ∀ x ∈ runTrace outcome fuel sched s,
      x.2.running.length ≤ 5 ∧
      (x.1 = true → x.2.pending ≠ [] → x.2.running.length = 5) := by
  intro fuel
  induction fuel with
  | zero =>
    intro sched s hs x hx
    simp [runTrace] at hx
    subst hx
    exact ⟨hs, by simp⟩
  | succ fuel ih =>
    intro sched s hs x hx
    cases hacq : acquireSlots 5 s.pending s.running with
    | mk p r =>
      have hrb : r.length ≤ 5 := by
        have := acquireSlots_bound 5 s.pending s.running hs
        rw [hacq] at this
        simpa using this
      have hfull : p ≠ [] → r.length = 5 := by
        intro hp
        have := acquireSlots_full 5 s.pending s.running (by rw [hacq]; simpa)
        rw [hacq] at this
        simp at this
        omega
      cases r with
      | nil =>
        rw [runTrace, hacq] at hx
        simp at hx
        rcases hx with hx | hx
        · rw [hx]
          exact ⟨hs, by simp⟩
        · rw [hx]
          refine ⟨by simp, ?_⟩
          intro _ hp
          exact absurd (hfull hp) (by simp)
      | cons a r =>
        rw [runTrace, hacq] at hx
        rcases List.mem_cons.mp hx with hx | hx
        · rw [hx]
          exact ⟨hs, by simp⟩
        · rcases List.mem_cons.mp hx with hx | hx
          · rw [hx]
            refine ⟨hrb, fun _ hp => hfull hp⟩
          · apply ih sched.tail _ _ x hx
            simp only [completeOne]
            rw [List.length_append, List.length_take, List.length_drop]
            have hklt : (sched.headD 0) % (a :: r).length < (a :: r).length :=
              Nat.mod_lt _ (by simp)
            simp only [List.length_cons] at hrb hklt ⊢
            omega

/-! ## String lemmas -/

theorem stripRight_append_space (t : PyStr) (c : Char) (hc : isPySpace c) :
    stripRight (t ++ [c]) = stripRight t := by
  unfold stripRight
  rw [List.reverse_append]
  simp [List.dropWhile_cons, hc]

theorem pyStrip_append_space (t : PyStr) (c : Char) (hc : isPySpace c) :
    pyStrip (t ++ [c]) = pyStrip t := by
  unfold pyStrip
  rw [stripRight_append_space t c hc]

theorem stripRight_mem {s : PyStr} {c : Char} (h : c ∈ stripRight s) : c ∈ s := by
  unfold stripRight at h
  rw [List.mem_reverse] at h
  have := List.dropWhile_subset isPySpace h
  rwa [List.mem_reverse] at this

theorem pyStrip_eq_nil_iff (s : PyStr) :
    pyStrip s = [] ↔ ∀ c ∈ s, isPySpace c := by
  constructor
  · intro h c hc
    unfold pyStrip stripLeft at h
    rw [List.dropWhile_eq_nil_iff] at h
    have hsplit : c ∈ s.reverse := List.mem_reverse.mpr hc
    rw [← List.takeWhile_append_dropWhile (p := isPySpace) (l := s.reverse)] at hsplit
    rcases List.mem_append.mp hsplit with h1 | h1
    · exact List.mem_takeWhile_imp h1
    · exact h c (by unfold stripRight; rwa [List.mem_reverse])
  · intro h
    unfold pyStrip stripLeft stripRight
    have h1 : s.reverse.dropWhile isPySpace = [] := by
      rw [List.dropWhile_eq_nil_iff]
      intro c hc
      exact h c (List.mem_reverse.mp hc)
    rw [h1]
    simp

theorem pyJoin_all_space (sep : PyStr) (hsep : ∀ c ∈ sep, isPySpace c) :
    ∀ (l : List PyStr), (∀ x ∈ l, ∀ c ∈ x, isPySpace c) →
    ∀ c ∈ pyJoin sep l, isPySpace c := by
  intro l
  induction l with
  | nil => simp [pyJoin]
  | cons x l ih =>
    intro hall c hc
    cases l with
    | nil => exact hall x (by simp) c hc
    | cons y rest =>
      simp only [pyJoin, List.append_assoc, List.mem_append] at hc
      rcases hc with hc | hc | hc
      · exact hall x (by simp) c hc
      · exact hsep c hc
      · exact ih (fun z hz => hall z (List.mem_cons_of_mem _ hz)) c hc

theorem keepTruthy_mem {transcripts : List (Option PyStr)} {s : PyStr}
    (h : s ∈ keepTruthy transcripts) : some s ∈ transcripts ∧ s ≠ [] := by
  unfold keepTruthy at h
  rw [List.mem_filterMap] at h
  obtain ⟨o, ho, heq⟩ := h
  cases o with
  | none => simp at heq
  | some t =>
    simp only at heq
    by_cases ht : t.isEmpty
    · rw [if_pos ht] at heq
      simp at heq
    · rw [if_neg ht] at heq
      obtain rfl : t = s := by simpa using heq
      exact ⟨ho, by simpa using ht⟩

theorem collectTranscript_eq (results : List (List PyStr))
    (h : ∀ alts ∈ results, alts ≠ []) :
    collectTranscript results
      = some ((results.map fun alts => alts.headD [] ++ [' ']).flatten) := by
  induction results with
  | nil => simp [collectTranscript]
  | cons alts rest ih =>
    cases halts : alts with
    | nil => exact absurd halts (h alts (by simp))
    | cons a as =>
      simp only [collectTranscript]
      rw [ih (fun x hx => h x (List.mem_cons_of_mem _ hx))]
      simp [halts]

theorem flatten_map_space (xs : List PyStr) (hne : xs ≠ []) :
    (xs.map fun x => x ++ [' ']).flatten = pyJoin [' '] xs ++ [' '] := by
  induction xs with
  | nil => exact absurd rfl hne
  | cons x l ih =>
    cases l with
    | nil => simp [pyJoin]
    | cons y rest =>
      simp only [List.map_cons, List.flatten_cons, pyJoin]
      rw [List.map_cons, List.flatten_cons] at ih
      rw [ih (by simp)]
      simp

/-! ## Chunking lemmas -/

theorem ceilDiv_succ_pred (len L : Nat) (hL : 0 < L) (hlen : 0 < len) :
    ceilDiv len L = (len - 1) / L + 1 := by
  unfold ceilDiv
  have h : len + L - 1 = (len - 1) + L := by omega
  rw [h, Nat.add_div_right _ hL]

theorem ceilDiv_pos (len L : Nat) (hL : 0 < L) (hlen : 0 < len) :
    0 < ceilDiv len L := by
  rw [ceilDiv_succ_pred len L hL hlen]
  exact Nat.succ_pos _

theorem ceilDiv_mul_bounds (len L : Nat) (hL : 0 < L) (hlen : 0 < len) :
    len ≤ ceilDiv len L * L ∧ (ceilDiv len L - 1) * L < len := by
  rw [ceilDiv_succ_pred len L hL hlen]
  have hdm := Nat.div_add_mod (len - 1) L
  have hmod := Nat.mod_lt (len - 1) hL
  have hexp1 : ((len - 1) / L + 1) * L = L * ((len - 1) / L) + L := by ring
  have hexp2 : ((len - 1) / L + 1 - 1) * L = L * ((len - 1) / L) := by
    simp [Nat.mul_comm]
  rw [hexp1, hexp2]
  omega

theorem ceilDiv_inner_full (len L i : Nat) (hL : 0 < L) (hlen : 0 < len)
    (hi : i + 1 < ceilDiv len L) : (i + 1) * L ≤ len := by
  rw [ceilDiv_succ_pred len L hL hlen] at hi
  have h1 : i + 1 ≤ (len - 1) / L := by omega
  have h2 : (i + 1) * L ≤ ((len - 1) / L) * L := Nat.mul_le_mul_right L h1
  have h3 : ((len - 1) / L) * L ≤ len - 1 := Nat.div_mul_le_self _ _
  omega

theorem make_chunks_length {α : Type} (audio : List α) (L : Nat) :
    (make_chunks audio L).length = ceilDiv audio.length L := by
  simp [make_chunks]

theorem make_chunks_get {α : Type} (audio : List α) (L : Nat) (i : Nat)
    (h : i < (make_chunks audio L).length) :
    (make_chunks audio L).get ⟨i, h⟩ = (audio.drop (i * L)).take L := by
  simp [make_chunks]

theorem make_chunks_map_length {α : Type} (audio : List α) (L : Nat) :
    (make_chunks audio L).map List.length
      = (List.range (ceilDiv audio.length L)).map
          (fun i => min L (audio.length - i * L)) := by
  unfold make_chunks
  rw [List.map_map]
  apply List.map_congr_left
  intro i _
  simp [List.length_take, List.length_drop]

/-! ## Pipeline lemmas -/

theorem assemble_all_space (transcripts : List (Option PyStr))
    (h : ∀ t ∈ transcripts, pyStrip (t.getD []) = []) :
    pyStrip (pyJoin ['\n'] (keepTruthy transcripts)) = [] := by
  rw [pyStrip_eq_nil_iff]
  apply pyJoin_all_space
  · intro c hc
    simp at hc
    subst hc
    decide
  · intro x hx c hc
    obtain ⟨hmem, _⟩ := keepTruthy_mem hx
    have hx2 := h (some x) hmem
    simp only [Option.getD_some] at hx2
    exact (pyStrip_eq_nil_iff x).mp hx2 c hc

theorem make_chunks_nil_audio (L : Nat) :
    make_chunks ([] : AudioStream) L = [] := by
  unfold make_chunks ceilDiv
  cases L with
  | zero => rfl
  | succ n =>
    have h : (List.length ([] : AudioStream) + (n + 1) - 1) / (n + 1) = 0 :=
      Nat.div_eq_of_lt (by simp)
    rw [h]
    rfl

/-! ## Claims -/

/-- Claim C1: for every list of N chunk files and every completion order
(`schedule`) of the concurrent per-chunk transcriptions,
`process_audio_chunks_parallel` returns a list of exactly N results whose
i-th element is the transcription result of chunk i, and the
chunk-to-result mapping is independent of the completion order. -/
theorem claim_c1_ordering (bucket : PyStr) (uploadOk : Nat → Bool)
    (rpc : PyStr → RpcOutcome) (schedule : List Nat)
    (chunk_files : List (List Unit)) :
    (process_audio_chunks_parallel bucket uploadOk rpc schedule chunk_files).length
        = chunk_files.length ∧
    (∀ i, i < chunk_files.length →
      (process_audio_chunks_parallel bucket uploadOk rpc schedule chunk_files).getD i none
        = transcribe_audio_chunk rpc (gcsUri bucket i) i) ∧
    (∀ schedule' : List Nat,
      process_audio_chunks_parallel bucket uploadOk rpc schedule chunk_files
        = process_audio_chunks_parallel bucket uploadOk rpc schedule' chunk_files) := by
  refine ⟨?_, ?_, ?_⟩
  · rw [process_audio_chunks_parallel_eq]
    simp
  · intro i hi
    rw [process_audio_chunks_parallel_eq]
    rw [List.getD_eq_getElem?_getD, List.getElem?_eq_getElem (by simpa using hi)]
    simp
  · intro schedule'
    rw [process_audio_chunks_parallel_eq, process_audio_chunks_parallel_eq]

/-- Witness for C1 at a concrete two-chunk input. -/
theorem claim_c1_ordering_witness :
    (process_audio_chunks_parallel ['b'] (fun _ => true) (fun _ => .rpcError)
        [1, 0] [[()], [()]]).getD 0 none
      = transcribe_audio_chunk (fun _ => .rpcError) (gcsUri ['b'] 0) 0 :=
  (claim_c1_ordering ['b'] (fun _ => true) (fun _ => .rpcError) [1, 0]
    [[()], [()]]).2.1 0 (by decide)

/-- Claim C3: at every instant of a `process_audio_chunks_parallel` run at
most 5 (the hard-coded semaphore bound) chunk transcriptions are in
flight, and after every admission pass, while chunks are still queued,
all 5 slots are occupied (a completed slot immediately admits the next
queued chunk). -/
theorem claim_c3_bound (bucket : PyStr) (rpc : PyStr → RpcOutcome)
    (schedule : List Nat) (chunk_files : List (List Unit)) :
    ∀ x ∈ processTrace bucket rpc schedule chunk_files,
      x.2.running.length ≤ 5 ∧
      (x.1 = true → x.2.pending ≠ [] → x.2.running.length = 5) := by
  intro x hx
  exact runTrace_bound _ _ _ _ (by simp) x hx

/-- Witness for C3 at a concrete one-chunk run. -/
theorem claim_c3_bound_witness :
    (true, (⟨[], [0], []⟩ : SchedState))
        ∈ processTrace ['b'] (fun _ => .rpcError) [] [[()]] ∧
    (⟨[], [0], []⟩ : SchedState).running.length ≤ 5 :=
  ⟨by decide,
    (claim_c3_bound ['b'] (fun _ => .rpcError) [] [[()]]
      (true, ⟨[], [0], []⟩) (by decide)).1⟩

/-- Claim C10: `process_audio_chunks_parallel` ignores the boolean
returned by `upload_to_gcs`: even when the staging upload of chunk i
failed, the recognition RPC is still invoked on chunk i's fixed GCS URI
(the result is whatever that RPC returns), and the run is identical to
one in which every upload succeeded. -/
theorem claim_c10_upload_ignored (bucket : PyStr) (uploadOk : Nat → Bool)
    (rpc : PyStr → RpcOutcome) (schedule : List Nat)
    (chunk_files : List (List Unit)) (i : Nat)
    (hi : i < chunk_files.length) (hfail : uploadOk i = false) :
    (process_audio_chunks_parallel bucket uploadOk rpc schedule chunk_files).getD i none
      = transcribe_audio_chunk rpc (gcsUri bucket i) i ∧
    process_audio_chunks_parallel bucket uploadOk rpc schedule chunk_files
      = process_audio_chunks_parallel bucket (fun _ => true) rpc schedule
          chunk_files := by
  constructor
  · rw [process_audio_chunks_parallel_eq]
    rw [List.getD_eq_getElem?_getD, List.getElem?_eq_getElem (by simpa using hi)]
    simp
  · rw [process_audio_chunks_parallel_eq, process_audio_chunks_parallel_eq]

/-- Witness for C10: a failed upload, yet the chunk's result is the
successful RPC's transcript. -/
theorem claim_c10_upload_ignored_witness :
    (fun _ : Nat => false) 0 = false ∧
    (process_audio_chunks_parallel ['b'] (fun _ => false)
        (fun _ => .success [[['h', 'i']]]) [] [[()]]).getD 0 none
      = transcribe_audio_chunk (fun _ => .success [[['h', 'i']]])
          (gcsUri ['b'] 0) 0 :=
  ⟨rfl, (claim_c10_upload_ignored ['b'] (fun _ => false)
    (fun _ => .success [[['h', 'i']]]) [] [[()]] 0 (by decide) rfl).1⟩

/-- Counterexample to claim C2 as stated: a staging failure is NOT a step
of `transcribe_audio_chunk` and does not by itself yield `None` — here
chunk 0's upload fails (`upload_to_gcs` returns `False`), yet the chunk's
result is the successful RPC's transcript, not `None`. -/
theorem claim_c2_counterexample :
    upload_to_gcs false = false ∧
    (process_audio_chunks_parallel ['b'] (fun _ => false)
        (fun _ => .success [[['h', 'i']]]) [] [[()]]).getD 0 none
      = some ['h', 'i'] := by
  constructor
  · rfl
  · decide

/-- Claim C2 (amended): every failure *inside* `transcribe_audio_chunk`
(an RPC error, a timeout of the bounded wait, or a malformed response
whose extraction raises) makes it return `None` for that chunk instead of
raising, and one chunk's failure never propagates into a sibling chunk's
result: a chunk's entry in the gathered result list depends only on the
RPC outcome at that chunk's own URI.  (A staging failure is absorbed
separately by `upload_to_gcs` returning `False`; it yields `None` only if
the subsequent RPC itself fails.) -/
theorem claim_c2_degradation (rpc : PyStr → RpcOutcome) (uri : PyStr)
    (idx : Nat) :
    (rpc uri = .rpcError → transcribe_audio_chunk rpc uri idx = none) ∧
    (rpc uri = .timedOut → transcribe_audio_chunk rpc uri idx = none) ∧
    (∀ results, rpc uri = .success results → collectTranscript results = none →
      transcribe_audio_chunk rpc uri idx = none) ∧
    (∀ (bucket : PyStr) (u u' : Nat → Bool) (rpc' : PyStr → RpcOutcome)
        (sched sched' : List Nat) (chunk_files : List (List Unit)) (i : Nat),
      i < chunk_files.length →
      rpc (gcsUri bucket i) = rpc' (gcsUri bucket i) →
      (process_audio_chunks_parallel bucket u rpc sched chunk_files).getD i none
        = (process_audio_chunks_parallel bucket u' rpc' sched' chunk_files).getD
            i none) := by
  refine ⟨?_, ?_, ?_, ?_⟩
  · intro h
    simp [transcribe_audio_chunk, h]
  · intro h
    simp [transcribe_audio_chunk, h]
  · intro results h hc
    simp [transcribe_audio_chunk, h, hc]
  · intro bucket u u' rpc' sched sched' chunk_files i hi hagree
    rw [process_audio_chunks_parallel_eq, process_audio_chunks_parallel_eq]
    rw [List.getD_eq_getElem?_getD, List.getElem?_eq_getElem (by simpa using hi)]
    rw [List.getD_eq_getElem?_getD, List.getElem?_eq_getElem (by simpa using hi)]
    simp only [List.getElem_map, List.getElem_range, Option.getD_some]
    simp [transcribe_audio_chunk, hagree]

/-- Witness for the amended C2: an erroring RPC yields `None`. -/
theorem claim_c2_degradation_witness :
    ((fun _ : PyStr => RpcOutcome.rpcError) [] = RpcOutcome.rpcError) ∧
    transcribe_audio_chunk (fun _ => .rpcError) [] 0 = none :=
  ⟨rfl, (claim_c2_degradation (fun _ => .rpcError) [] 0).1 rfl⟩

theorem pyStrip_flatten_join (xs : List PyStr) :
    pyStrip ((xs.map fun x => x ++ [' ']).flatten) = pyStrip (pyJoin [' '] xs) := by
  cases xs with
  | nil => rfl
  | cons y ys =>
    rw [flatten_map_space (y :: ys) (by simp)]
    rw [pyStrip_append_space _ ' ' (by decide)]

/-- Claim C8: for a successful recognition response (each result carrying
at least one alternative), the per-chunk text equals the alternative-1
transcripts concatenated in response order, separated by single spaces,
with surrounding whitespace trimmed. -/
theorem claim_c8_chunk_text (rpc : PyStr → RpcOutcome) (gcs_uri : PyStr)
    (idx : Nat) (results : List (List PyStr))
    (hrpc : rpc gcs_uri = .success results)
    (halts : ∀ alternatives ∈ results, alternatives ≠ []) :
    transcribe_audio_chunk rpc gcs_uri idx
      = some (pyStrip (pyJoin [' ']
          (results.map fun alternatives => alternatives.headD []))) := by
  unfold transcribe_audio_chunk
  rw [hrpc]
  show (match collectTranscript results with
        | some transcript => some (pyStrip transcript)
        | none => none)
      = some (pyStrip (pyJoin [' ']
          (results.map fun alternatives => alternatives.headD [])))
  rw [collectTranscript_eq results halts]
  show some (pyStrip ((results.map fun alternatives =>
    alternatives.headD [] ++ [' ']).flatten)) = _
  have hmap : (results.map fun alternatives => alternatives.headD [] ++ [' '])
      = (results.map fun alternatives => alternatives.headD []).map
          (fun x => x ++ [' ']) := by
    rw [List.map_map]
    rfl
  rw [hmap]
  exact congrArg some (pyStrip_flatten_join _)

/-- Witness for C8: two recognition results give "a b". -/
theorem claim_c8_chunk_text_witness :
    ((fun _ : PyStr => RpcOutcome.success [[['a']], [['b'], ['x']]]) []
        = RpcOutcome.success [[['a']], [['b'], ['x']]]) ∧
    transcribe_audio_chunk (fun _ => .success [[['a']], [['b'], ['x']]]) [] 3
      = some (pyStrip (pyJoin [' ']
          ([[['a']], [['b'], ['x']]].map fun alternatives =>
            alternatives.headD []))) :=
  ⟨rfl, claim_c8_chunk_text (fun _ => .success [[['a']], [['b'], ['x']]])
    [] 3 [[['a']], [['b'], ['x']]] rfl (by decide)⟩

theorem make_chunks_getElem {α : Type} (audio : List α) (L i : Nat)
    (h : i < (make_chunks audio L).length) :
    (make_chunks audio L).get ⟨i, h⟩ = (audio.drop (i * L)).take L :=
  make_chunks_get audio L i h

/-- Claim C5: for positive total duration and positive chunk length,
splitting yields exactly `ceil(total / chunkLen)` chunks, in temporal
order (chunk i is the slice starting at offset `i * chunkLen`), each of
length `chunkLen` except the last, which is truncated to the remaining
duration. -/
theorem claim_c5_chunking (audio : AudioStream) (L : Nat) (hL : 0 < L)
    (hlen : 0 < audio.length) :
    (split_audio_for_processing .ok audio L).1 = make_chunks audio L ∧
    (make_chunks audio L).length = ceilDiv audio.length L ∧
    (∀ i (h : i < (make_chunks audio L).length),
      (make_chunks audio L).get ⟨i, h⟩ = (audio.drop (i * L)).take L) ∧
    (∀ i (h : i < (make_chunks audio L).length),
      i + 1 < (make_chunks audio L).length →
      ((make_chunks audio L).get ⟨i, h⟩).length = L) ∧
    (∀ (h : make_chunks audio L ≠ []),
      ((make_chunks audio L).getLast h).length
        = audio.length - ((make_chunks audio L).length - 1) * L) ∧
    (make_chunks audio L).map List.length
      = (List.range (ceilDiv audio.length L)).map
          (fun i => min L (audio.length - i * L)) := by
  refine ⟨rfl, make_chunks_length audio L, make_chunks_get audio L, ?_, ?_,
    make_chunks_map_length audio L⟩
  · intro i h hi1
    rw [make_chunks_get audio L i h]
    rw [List.length_take, List.length_drop]
    have hfull : (i + 1) * L ≤ audio.length := by
      apply ceilDiv_inner_full audio.length L i hL hlen
      rwa [make_chunks_length audio L] at hi1
    have hexp : (i + 1) * L = i * L + L := by ring
    rw [hexp] at hfull
    exact Nat.min_eq_left (by omega)
  · intro h
    have hlast : (make_chunks audio L).length - 1
        < (make_chunks audio L).length := by
      cases hq : make_chunks audio L with
      | nil => exact absurd hq h
      | cons c cs => simp [hq]
    have hle : (make_chunks audio L).getLast h
        = (make_chunks audio L).get ⟨(make_chunks audio L).length - 1, hlast⟩ := by
      rw [List.getLast_eq_getElem, List.get_eq_getElem]
    rw [hle, make_chunks_get audio L _ hlast]
    rw [List.length_take, List.length_drop]
    have hk := make_chunks_length audio L
    have hpos : 0 < ceilDiv audio.length L := ceilDiv_pos audio.length L hL hlen
    obtain ⟨hub, hlb⟩ := ceilDiv_mul_bounds audio.length L hL hlen
    have hsplit : ceilDiv audio.length L * L
        = (ceilDiv audio.length L - 1) * L + L := by
      have h1 : ceilDiv audio.length L = (ceilDiv audio.length L - 1) + 1 := by
        omega
      calc ceilDiv audio.length L * L
          = ((ceilDiv audio.length L - 1) + 1) * L := by rw [← h1]
        _ = (ceilDiv audio.length L - 1) * L + L := by ring
    rw [hk]
    exact Nat.min_eq_right (by omega)

/-- Witness for C5: 700000 ms at chunk length 300000 ms gives chunks of
lengths [300000, 300000, 100000]. -/
theorem claim_c5_chunking_witness :
    0 < 300000 ∧ 0 < (List.replicate 700000 ()).length ∧
    (make_chunks (List.replicate 700000 ()) 300000).map List.length
      = [300000, 300000, 100000] := by
  refine ⟨by norm_num, by rw [List.length_replicate]; norm_num, ?_⟩
  have h := (claim_c5_chunking (List.replicate 700000 ()) 300000 (by norm_num)
    (by rw [List.length_replicate]; norm_num)).2.2.2.2.2
  rw [h]
  rw [List.length_replicate]
  have hc : ceilDiv 700000 300000 = 3 := by norm_num [ceilDiv]
  rw [hc]
  rw [show List.range 3 = [0, 1, 2] from rfl]
  norm_num

/-- The final-transcript assembly of line 497:
`"\n".join([t for t in transcripts if t])`. -/
def assembleFinalTranscript (transcripts : List (Option PyStr)) : PyStr :=
  pyJoin ['\n'] (keepTruthy transcripts)

/-- Spec-side description of the texts that survive assembly: the
non-`None`, non-empty texts, in index order. -/
def specNonEmptyTexts (results : List (Option PyStr)) : List PyStr :=
  (results.filterMap id).filter fun t => !t.isEmpty

theorem keepTruthy_eq_spec (transcripts : List (Option PyStr)) :
    keepTruthy transcripts = specNonEmptyTexts transcripts := by
  unfold keepTruthy specNonEmptyTexts
  induction transcripts with
  | nil => rfl
  | cons o ts ih =>
    cases o with
    | none => simpa using ih
    | some t =>
      cases t with
      | nil => simpa using ih
      | cons c cs =>
        have ih2 := ih
        simp at ih2 ⊢
        exact ih2

/-- Claim C7: for every result sequence containing at least one non-empty
text, the assembled transcript is exactly the non-empty texts, in index
order, joined with a single newline, with `None`/empty entries skipped and
no other normalization applied. -/
theorem claim_c7_assembly (transcripts : List (Option PyStr))
    (hsome : ∃ t, some t ∈ transcripts ∧ t ≠ []) :
    assembleFinalTranscript transcripts
      = pyJoin ['\n'] (specNonEmptyTexts transcripts) := by
  unfold assembleFinalTranscript
  rw [keepTruthy_eq_spec]

/-- Witness for C7: results ["hi", None, "", "yo"] assemble to exactly
"hi" newline "yo". -/
theorem claim_c7_assembly_witness :
    (∃ t, some t ∈ [some ['h', 'i'], none, some ([] : PyStr), some ['y', 'o']]
        ∧ t ≠ []) ∧
    assembleFinalTranscript [some ['h', 'i'], none, some [], some ['y', 'o']]
      = pyJoin ['\n']
          (specNonEmptyTexts [some ['h', 'i'], none, some [], some ['y', 'o']]) ∧
    assembleFinalTranscript [some ['h', 'i'], none, some [], some ['y', 'o']]
      = ['h', 'i', '\n', 'y', 'o'] :=
  ⟨⟨['h', 'i'], by decide, by decide⟩,
    claim_c7_assembly _ ⟨['h', 'i'], by decide, by decide⟩,
    by decide⟩

/-- Claim C6: when the pipeline reaches the transcription stage (input
valid, conversion succeeded, a non-empty chunk list, no cancellation) and
every chunk's gathered result is `None` or whitespace-only, the run fails
with the empty-transcript error after all concurrent work is gathered,
and no output file is written. -/
theorem claim_c6_empty_transcript (env : PipelineEnv)
    (hv : validate_audio_file env.fileExists env.file_size = true)
    (hc : convert_to_wav_if_needed env.decoded env.exportOk = true)
    (hcancel : env.cancelAt = none)
    (hchunks : (split_audio_for_processing env.splitOutcome (env.decoded.getD [])
        env.chunk_length_ms).1 ≠ [])
    (hempty : ∀ t ∈ process_audio_chunks_parallel env.bucket env.uploadOk env.rpc
        env.schedule
        (split_audio_for_processing env.splitOutcome (env.decoded.getD [])
          env.chunk_length_ms).1,
      pyStrip (t.getD []) = []) :
    process_audio_transcription env
      = (.pipeError .emptyTranscript, ⟨false, 0, none⟩) := by
  have hso : env.splitOutcome = .ok := by
    cases hq : env.splitOutcome with
    | ok => rfl
    | failAfter k =>
      exfalso
      apply hchunks
      rw [hq]
      rfl
  have hie : (split_audio_for_processing env.splitOutcome (env.decoded.getD [])
      env.chunk_length_ms).1.isEmpty = false := by
    cases hq : (split_audio_for_processing env.splitOutcome (env.decoded.getD [])
        env.chunk_length_ms).1 with
    | nil => exact absurd hq hchunks
    | cons c cs => rfl
  have hstrip : (pyStrip (pyJoin ['\n'] (keepTruthy
      (process_audio_chunks_parallel env.bucket env.uploadOk env.rpc env.schedule
        (split_audio_for_processing env.splitOutcome (env.decoded.getD [])
          env.chunk_length_ms).1)))).isEmpty = true := by
    rw [assemble_all_space _ hempty]
    rfl
  have hbody : pipelineTryBody env
      = ⟨.pipeError .emptyTranscript,
          (split_audio_for_processing env.splitOutcome (env.decoded.getD [])
            env.chunk_length_ms).2,
          (split_audio_for_processing env.splitOutcome (env.decoded.getD [])
            env.chunk_length_ms).1.length, none⟩ := by
    unfold pipelineTryBody
    simp [hcancel, hc, hie, hstrip, hchunks]
  unfold process_audio_transcription
  rw [hv, hbody]
  have hlen : (split_audio_for_processing env.splitOutcome (env.decoded.getD [])
        env.chunk_length_ms).2
      = (split_audio_for_processing env.splitOutcome (env.decoded.getD [])
          env.chunk_length_ms).1.length := by
    rw [hso]
    rfl
  simp [hlen]

/-- Concrete environment for the C6 witness: one chunk whose RPC errors. -/
def cenvC6 : PipelineEnv :=
  { fileExists := true, file_size := 5, decoded := some [()], exportOk := true,
    splitOutcome := .ok, bucket := ['b'], uploadOk := fun _ => true,
    rpc := fun _ => .rpcError, schedule := [], saveOutcome := .ok,
    saveCancelWritten := [], cancelAt := none, chunk_length_ms := 1 }

/-- Witness for C6: the single chunk fails, the run reports the
empty-transcript error and writes no output. -/
theorem claim_c6_empty_transcript_witness :
    validate_audio_file cenvC6.fileExists cenvC6.file_size = true ∧
    process_audio_transcription cenvC6
      = (.pipeError .emptyTranscript, ⟨false, 0, none⟩) :=
  ⟨rfl, claim_c6_empty_transcript cenvC6 rfl rfl rfl (by decide) (by decide)⟩

/-- Concrete environment refuting C9: nonzero file size but a decoded
stream of zero duration. -/
def cenvC9 : PipelineEnv :=
  { fileExists := true, file_size := 44, decoded := some [], exportOk := true,
    splitOutcome := .ok, bucket := ['b'], uploadOk := fun _ => true,
    rpc := fun _ => .rpcError, schedule := [], saveOutcome := .ok,
    saveCancelWritten := [], cancelAt := none, chunk_length_ms := 300000 }

/-- Counterexample to claim C9 as stated: on a zero-duration decoded
stream, normalization (`convert_to_wav_if_needed`) succeeds — it never
inspects the duration — so the chunker IS invoked on empty audio; it
yields zero chunks and the pipeline fails at the split step, not during
normalization. -/
theorem claim_c9_counterexample :
    convert_to_wav_if_needed cenvC9.decoded cenvC9.exportOk = true ∧
    make_chunks (cenvC9.decoded.getD []) cenvC9.chunk_length_ms = [] ∧
    process_audio_transcription cenvC9
      = (.pipeError .splitFailed, ⟨false, 0, none⟩) := by
  refine ⟨rfl, ?_, by decide⟩
  exact make_chunks_nil_audio _

/-- Claim C9 (amended): an input whose decoded stream has zero duration
but whose file has nonzero size passes validation and normalization; the
chunker is invoked on the empty audio and returns an empty chunk list, and
the pipeline then fails at the split step (split error, not a
normalization error). -/
theorem claim_c9_zero_duration (env : PipelineEnv)
    (hfe : env.fileExists = true) (hfs : env.file_size ≠ 0)
    (hdec : env.decoded = some []) (hexp : env.exportOk = true)
    (hcancel : env.cancelAt = none) :
    validate_audio_file env.fileExists env.file_size = true ∧
    convert_to_wav_if_needed env.decoded env.exportOk = true ∧
    make_chunks (env.decoded.getD []) env.chunk_length_ms = [] ∧
    (process_audio_transcription env).1 = .pipeError .splitFailed := by
  have hval : validate_audio_file env.fileExists env.file_size = true := by
    unfold validate_audio_file
    rw [hfe]
    simp [hfs]
  have hconv : convert_to_wav_if_needed env.decoded env.exportOk = true := by
    rw [hdec]
    simpa [convert_to_wav_if_needed] using hexp
  have hmk : make_chunks (env.decoded.getD []) env.chunk_length_ms = [] := by
    rw [hdec]
    exact make_chunks_nil_audio _
  have hsplit1 : (split_audio_for_processing env.splitOutcome
      (env.decoded.getD []) env.chunk_length_ms).1 = [] := by
    cases hso : env.splitOutcome with
    | ok =>
      simp [split_audio_for_processing, hmk]
    | failAfter k => rfl
  have hbody1 : (pipelineTryBody env).res = .pipeError .splitFailed := by
    unfold pipelineTryBody
    simp [hcancel, hconv, hsplit1]
  refine ⟨hval, hconv, hmk, ?_⟩
  unfold process_audio_transcription
  simp [hval, hbody1]

/-- Concrete environment for the amended-C9 witness. -/
def cenvC9w : PipelineEnv :=
  { fileExists := true, file_size := 10, decoded := some [], exportOk := true,
    splitOutcome := .ok, bucket := ['b'], uploadOk := fun _ => true,
    rpc := fun _ => .rpcError, schedule := [], saveOutcome := .ok,
    saveCancelWritten := [], cancelAt := none, chunk_length_ms := 5 }

/-- Witness for the amended C9. -/
theorem claim_c9_zero_duration_witness :
    cenvC9w.fileExists = true ∧ cenvC9w.file_size ≠ 0 ∧
    cenvC9w.decoded = some [] ∧ cenvC9w.exportOk = true ∧
    cenvC9w.cancelAt = none ∧
    (process_audio_transcription cenvC9w).1 = .pipeError .splitFailed :=
  ⟨rfl, by decide, rfl, rfl, rfl,
    (claim_c9_zero_duration cenvC9w rfl (by decide) rfl rfl rfl).2.2.2⟩

/-- Concrete environment refuting C4 on the output-file clause: the
final save raises midway, leaving the output file partially written;
cleanup does not remove it. -/
def cenvC4 : PipelineEnv :=
  { fileExists := true, file_size := 10, decoded := some [(), ()],
    exportOk := true, splitOutcome := .ok, bucket := ['b'],
    uploadOk := fun _ => true, rpc := fun _ => .success [[['h', 'i']]],
    schedule := [], saveOutcome := .failPartWritten ['h'],
    saveCancelWritten := [], cancelAt := none, chunk_length_ms := 1 }

/-- Concrete environment refuting C4 on the chunk-file clause: exporting
chunk 2 of 3 raises, the split's `except` returns `[]`, and the 2 chunk
files already exported are in no list the `finally` unlinks. -/
def cenvC4b : PipelineEnv :=
  { fileExists := true, file_size := 7, decoded := some [(), (), ()],
    exportOk := true, splitOutcome := .failAfter 2, bucket := ['b'],
    uploadOk := fun _ => true, rpc := fun _ => .success [[['o', 'k']]],
    schedule := [], saveOutcome := .ok, saveCancelWritten := [],
    cancelAt := none, chunk_length_ms := 1 }

/-- Counterexample to claim C4 as stated, on both of its removal
clauses.  First run (`cenvC4`): a failing exit on which the `finally`
removes the normalized-audio temp file and the chunk files, but the
partially written output file survives — the source never deletes
`output_path` on any path.  Second run (`cenvC4b`): the chunk-export
loop fails after 2 of 3 chunk files are written; the run exits with the
split error and the 2 orphaned chunk temporary files survive cleanup —
so cleanup does not remove "every chunk's temporary file" either. -/
theorem claim_c4_counterexample :
    process_audio_transcription cenvC4
      = (.pipeError .saveFailed, ⟨false, 0, some (['h'], false)⟩) ∧
    process_audio_transcription cenvC4b
      = (.pipeError .splitFailed, ⟨false, 2, none⟩) := by
  constructor
  · decide
  · decide

theorem pipelineTryBody_files (env : PipelineEnv)
    (h : env.splitOutcome = .ok) :
    (pipelineTryBody env).filesOnDisk - (pipelineTryBody env).filesListed
      = 0 := by
  unfold pipelineTryBody
  have hs2 : split_audio_for_processing env.splitOutcome (env.decoded.getD [])
      env.chunk_length_ms
      = (make_chunks (env.decoded.getD []) env.chunk_length_ms,
          (make_chunks (env.decoded.getD []) env.chunk_length_ms).length) := by
    rw [h]
    rfl
  simp only [hs2]
  repeat' split
  all_goals simp_all [List.isEmpty_iff]

/-- Claim C4 (amended): on every exit path of
`process_audio_transcription` (success, failure, or cancellation) the
`finally` cleanup removes the normalized-audio temporary file and every
chunk temporary file recorded in the orchestrator's `chunk_files` list —
in particular all chunk files whenever splitting succeeded; the cleanup
never removes the output file, so a partially written output survives,
and the chunk files orphaned by a chunk-export failure after `k` files
(which the empty `chunk_files` list does not record) survive as well.
Stated as: (1) the normalized-audio temp file is removed on every exit
path; (2) cleanup passes the `try` body's output file through untouched
whenever the body ran at all; (3) when splitting succeeded no chunk file
remains; (4) when the chunk-export loop failed after `k` files and the
run reached the split step, exactly the `k` orphaned files (capped at
the chunk count) remain. -/
theorem claim_c4_cleanup (env : PipelineEnv) :
    (process_audio_transcription env).2.normTempRemains = false ∧
    (validate_audio_file env.fileExists env.file_size = true →
      (process_audio_transcription env).2.outputFile
        = (pipelineTryBody env).output) ∧
    (env.splitOutcome = .ok →
      (process_audio_transcription env).2.chunkFilesRemain = 0) ∧
    (∀ k, env.splitOutcome = .failAfter k →
      validate_audio_file env.fileExists env.file_size = true →
      convert_to_wav_if_needed env.decoded env.exportOk = true →
      env.cancelAt ≠ some .convertStage →
      env.cancelAt ≠ some .splitStage →
      (process_audio_transcription env).2.chunkFilesRemain
        = min k (make_chunks (env.decoded.getD [])
            env.chunk_length_ms).length) := by
  refine ⟨?_, ?_, ?_, ?_⟩
  · unfold process_audio_transcription
    split
    · rfl
    · rfl
  · intro hv
    unfold process_audio_transcription
    simp [hv]
  · intro h
    unfold process_audio_transcription
    split
    · rfl
    · exact pipelineTryBody_files env h
  · intro k hso hv hc hc1 hc2
    have hsplit : split_audio_for_processing env.splitOutcome
        (env.decoded.getD []) env.chunk_length_ms
        = ([], min k (make_chunks (env.decoded.getD [])
            env.chunk_length_ms).length) := by
      rw [hso]
      rfl
    have hbody : pipelineTryBody env
        = ⟨.pipeError .splitFailed,
            min k (make_chunks (env.decoded.getD [])
              env.chunk_length_ms).length, 0, none⟩ := by
      unfold pipelineTryBody
      simp [hc1, hc2, hc, hsplit]
    unfold process_audio_transcription
    simp [hv, hbody]

/-- Concrete environment for the amended-C4 witness: the spec's
cancellation scenario — cancel while 5 staged chunks are being
transcribed. -/
def cenvC4w : PipelineEnv :=
  { fileExists := true, file_size := 9, decoded := some (List.replicate 5 ()),
    exportOk := true, splitOutcome := .ok, bucket := ['b'],
    uploadOk := fun _ => true, rpc := fun _ => .success [[['o', 'k']]],
    schedule := [], saveOutcome := .ok, saveCancelWritten := ['p'],
    cancelAt := some .transcribeStage, chunk_length_ms := 1 }

/-- Witness for the amended C4: cancelled mid-transcription with 5 chunk
files staged, zero temporary files remain. -/
theorem claim_c4_cleanup_witness :
    cenvC4w.splitOutcome = .ok ∧
    (process_audio_transcription cenvC4w).2.normTempRemains = false ∧
    (process_audio_transcription cenvC4w).2.chunkFilesRemain = 0 :=
  ⟨rfl, (claim_c4_cleanup cenvC4w).1, (claim_c4_cleanup cenvC4w).2.2.1 rfl⟩
